import Mathlib

/-!
Verification of the semantic core of the pie-slang repository: a
normalization-by-evaluation interpreter for a small dependently typed
language (Pie).  The Value hierarchy with its `readBackType` methods, the
`Delay`/`Box` memoization cell and its `now` method are embedded from
`src/pie_interpreter/types/value.ts`.  The core-expression syntax, the
evaluator `valOf`, the term-level read-back `readBack`, the definitional
equality `convert`, the bidirectional checker and the fresh-name generator
are not part of the provided sources (only their callers and tests are),
so they are modelled from the specification, as marked on each definition.
-/

namespace PieSlang

/-- Modelled from the spec: the core-expression syntax (spec section 3,
"Core expression"); the file `types/core.ts` is not among the provided
sources.  One immutable variant per language construct; variants hold only
further core expressions, raw literals and binder names. -/
inductive Core where
  | universe : Core
  | nat : Core
  | zero : Core
  | add1 (n : Core) : Core
  | whichNat (target base step : Core) : Core
  | pi (argName : String) (argType resultType : Core) : Core
  | lambda (argName : String) (body : Core) : Core
  | app (fn arg : Core) : Core
  | sigma (carName : String) (carType cdrType : Core) : Core
  | cons (car cdr : Core) : Core
  | car (pair : Core) : Core
  | cdr (pair : Core) : Core
  | the (type expr : Core) : Core
  | varName (name : String) : Core
  | atom : Core
  | quote (name : String) : Core
  | trivial : Core
  | sole : Core
  | absurd : Core
  | list (entryType : Core) : Core
  | nil : Core
  | listCons (head tail : Core) : Core
  | equal (type lhs rhs : Core) : Core
  | same (expr : Core) : Core
  | vec (entryType length : Core) : Core
  | vecNil : Core
  | vecCons (head tail : Core) : Core
  | either (leftType rightType : Core) : Core
  | left (expr : Core) : Core
  | right (expr : Core) : Core
  deriving DecidableEq, Repr

/-- Modelled from the spec: a nameless (de Bruijn) rendering of core
expressions used to define alpha-equivalence ("structural equality up to a
consistent bijective renaming of bound variables, not string identity",
spec section 4.3).  Bound variables become indices, free variables keep
their names. -/
inductive DB where
  | universe : DB
  | nat : DB
  | zero : DB
  | add1 (n : DB) : DB
  | whichNat (target base step : DB) : DB
  | pi (argType resultType : DB) : DB
  | lambda (body : DB) : DB
  | app (fn arg : DB) : DB
  | sigma (carType cdrType : DB) : DB
  | cons (car cdr : DB) : DB
  | car (pair : DB) : DB
  | cdr (pair : DB) : DB
  | the (type expr : DB) : DB
  | bound (i : Nat) : DB
  | free (name : String) : DB
  | atom : DB
  | quote (name : String) : DB
  | trivial : DB
  | sole : DB
  | absurd : DB
  | list (entryType : DB) : DB
  | nil : DB
  | listCons (head tail : DB) : DB
  | equal (type lhs rhs : DB) : DB
  | same (expr : DB) : DB
  | vec (entryType length : DB) : DB
  | vecNil : DB
  | vecCons (head tail : DB) : DB
  | either (leftType rightType : DB) : DB
  | left (expr : DB) : DB
  | right (expr : DB) : DB
  deriving DecidableEq, Repr

/-- Modelled from the spec: translate a core expression to its nameless
form relative to a stack of enclosing binder names (innermost first). -/
def toDB (bs : List String) : Core → DB
  | .universe => .universe
  | .nat => .nat
  | .zero => .zero
  | .add1 n => .add1 (toDB bs n)
  | .whichNat t b s => .whichNat (toDB bs t) (toDB bs b) (toDB bs s)
  | .pi x a r => .pi (toDB bs a) (toDB (x :: bs) r)
  | .lambda x b => .lambda (toDB (x :: bs) b)
  | .app f a => .app (toDB bs f) (toDB bs a)
  | .sigma x a d => .sigma (toDB bs a) (toDB (x :: bs) d)
  | .cons a d => .cons (toDB bs a) (toDB bs d)
  | .car p => .car (toDB bs p)
  | .cdr p => .cdr (toDB bs p)
  | .the t e => .the (toDB bs t) (toDB bs e)
  | .varName x =>
      match bs.indexOf? x with
      | some i => .bound i
      | none => .free x
  | .atom => .atom
  | .quote s => .quote s
  | .trivial => .trivial
  | .sole => .sole
  | .absurd => .absurd
  | .list t => .list (toDB bs t)
  | .nil => .nil
  | .listCons h t => .listCons (toDB bs h) (toDB bs t)
  | .equal t l r => .equal (toDB bs t) (toDB bs l) (toDB bs r)
  | .same e => .same (toDB bs e)
  | .vec t n => .vec (toDB bs t) (toDB bs n)
  | .vecNil => .vecNil
  | .vecCons h t => .vecCons (toDB bs h) (toDB bs t)
  | .either l r => .either (toDB bs l) (toDB bs r)
  | .left e => .left (toDB bs e)
  | .right e => .right (toDB bs e)

/-- Modelled from the spec: two core expressions are alpha-equivalent when
their nameless renderings coincide (spec section 4.3). -/
def alphaEquiv (e1 e2 : Core) : Bool :=
  toDB [] e1 = toDB [] e2

mutual

/-- The semantic value domain, embedded from the class hierarchy of
`src/pie_interpreter/types/value.ts`: one variant per class deriving
`Value` there.  A `Delay` holds the identity of its `Box` cell (the store
index); the box contents live in a `Store` so that every alias of the same
cell observes the same forcing. -/
inductive Value where
  | delay (cell : Nat) : Value
  | quote (name : String) : Value
  | add1 (smaller : Value) : Value
  | pi (argName : String) (argType : Value) (resultType : Closure) : Value
  | lambda (argName : String) (body : Closure) : Value
  | sigma (carName : String) (carType : Value) (cdrType : Closure) : Value
  | cons (car cdr : Value) : Value
  | listCons (head tail : Value) : Value
  | list (entryType : Value) : Value
  | equal (type lhs rhs : Value) : Value
  | same (value : Value) : Value
  | vec (entryType length : Value) : Value
  | vecCons (head tail : Value) : Value
  | either (leftType rightType : Value) : Value
  | left (value : Value) : Value
  | right (value : Value) : Value
  | neutral (type : Value) (neutral : Neutral) : Value
  | universe : Value
  | nat : Value
  | zero : Value
  | atom : Value
  | trivial : Value
  | sole : Value
  | nil : Value
  | absurd : Value
  | vecNil : Value

/-- Modelled from the spec: a closure is "an environment plus a
core-expression body representing a function of exactly one bound name"
(spec section 3); the defining file `types/utils.ts` is not among the
provided sources. -/
inductive Closure where
  | mk (env : Env) (argName : String) (body : Core) : Closure

/-- Modelled from the spec: the neutral-spine description carried by a
stuck computation (spec section 2, "Neutral-term model"); the defining
file `types/neutral.ts` is not among the provided sources.  An
application node carries the argument together with its type so the spine
can be read back. -/
inductive Neutral where
  | nvar (name : String) : Neutral
  | napp (rator : Neutral) (randType rand : Value) : Neutral
  | ncar (pair : Neutral) : Neutral
  | ncdr (pair : Neutral) : Neutral
  | nwhichNat (target : Neutral) (base step : Value) : Neutral

/-- Modelled from the spec: "an ordered list of (name, value) bindings;
lookup finds the nearest (most recently bound) entry" (spec section 3). -/
inductive Env where
  | nil : Env
  | cons (name : String) (value : Value) (rest : Env) : Env

end

/-- Environment lookup: the nearest (most recently bound) entry wins. -/
def Env.lookup : Env → String → Option Value
  | .nil, _ => none
  | .cons y v rest, x => if y = x then some v else rest.lookup x

/-- Embedded from `value.ts`: `DelayClosure` pairs an environment with a
core expression awaiting evaluation. -/
structure DelayClosure where
  env : Env
  expr : Core

/-- The content of a `Box` backing a `Delay`: either an unforced
`DelayClosure` or the already-forced `Value` (`Box<DelayClosure | Value>`
in `value.ts`). -/
inductive Cell where
  | unforced (dc : DelayClosure) : Cell
  | forced (v : Value) : Cell

/-- The store of `Box` cells; a `Delay value.cell` index identifies one
shared cell, so aliases of a delay are exactly values carrying the same
index. -/
def Store := List Cell

def Store.get (σ : Store) (i : Nat) : Option Cell :=
  let l : List Cell := σ
  l[i]?

def Store.set (σ : Store) (i : Nat) (c : Cell) : Store := List.set σ i c

/-- A context entry: `Free(type)` for a locally bound variable or
`Definition(type, value)` for a top-level name (spec section 3,
"Context"); the defining file `utils/context.ts` is not among the
provided sources. -/
inductive CtxEntry where
  | free (type : Value) : CtxEntry
  | definition (type value : Value) : CtxEntry

/-- Modelled from the spec: a context maps names to binding tags. -/
def Ctx := List (String × CtxEntry)

/-- Every name bound (free or defined) in the context. -/
def ctxNames (ctx : Ctx) : List String := ctx.map Prod.fst

/-- `bindFree` from `utils/context.ts` (not among the provided sources):
extend the context with a free binding. -/
def bindFree (ctx : Ctx) (x : String) (type : Value) : Ctx :=
  (x, .free type) :: ctx

/-- Modelled from the spec: the environment induced by a context, binding
each free name to a neutral variable of its type and each defined name to
its value (used when evaluating type-level subexpressions, spec
section 4.4). -/
def ctxToEnv : Ctx → Env
  | [] => .nil
  | (x, .free t) :: rest => .cons x (.neutral t (.nvar x)) (ctxToEnv rest)
  | (x, .definition _ v) :: rest => .cons x v (ctxToEnv rest)

/-- Subscript rendering of a decimal digit, used for disambiguating
colliding names (test oracle: the second binder named `x` becomes `x₁`). -/
def subDigit : Nat → Char
  | 0 => '₀'
  | 1 => '₁'
  | 2 => '₂'
  | 3 => '₃'
  | 4 => '₄'
  | 5 => '₅'
  | 6 => '₆'
  | 7 => '₇'
  | 8 => '₈'
  | _ => '₉'

/-- Little-endian decimal digits with structural fuel (so that concrete
fresh names compute by definitional reduction). -/
def digitsFuel : Nat → Nat → List Nat
  | 0, _ => []
  | f + 1, n => if n = 0 then [] else n % 10 :: digitsFuel f (n / 10)

/-- Little-endian decimal digits of a natural number. -/
def natDigits (n : Nat) : List Nat := digitsFuel n n

/-- Subscript rendering of a natural number. -/
def toSub (n : Nat) : String :=
  String.mk ((natDigits n).reverse.map subDigit)

/-- Modelled from the spec: fresh-name search, "colliding names are
disambiguated by appending/incrementing a numeric subscript,
deterministically, as a pure function of the context's current name set"
(spec section 3); the defining file `types/utils.ts` is not among the
provided sources.  Tries `hint₁`, `hint₂`, ... in order; the fuel is a
structural bound, sized by the caller so that exhaustion is unreachable. -/
def freshAux (used : List String) (hint : String) : Nat → Nat → String
  | k, 0 => hint ++ toSub k
  | k, fuel + 1 =>
      if (hint ++ toSub k) ∈ used then freshAux used hint (k + 1) fuel
      else hint ++ toSub k

/-- Modelled from the spec: `fresh(context, hint)` returns `hint` when it
is unused, else the first subscripted variant absent from the used-name
set. -/
def fresh (used : List String) (hint : String) : String :=
  if hint ∈ used then freshAux used hint 1 (used.length + 1) else hint

theorem subDigit_injOn {d1 d2 : Nat} (h1 : d1 < 10) (h2 : d2 < 10)
    (h : subDigit d1 = subDigit d2) : d1 = d2 := by
  interval_cases d1 <;> interval_cases d2 <;> simp_all [subDigit]

theorem map_subDigit_inj : ∀ (l1 l2 : List Nat), (∀ x ∈ l1, x < 10) →
    (∀ x ∈ l2, x < 10) → l1.map subDigit = l2.map subDigit → l1 = l2 := by
  intro l1
  induction l1 with
  | nil => intro l2 _ _ h; cases l2 <;> simp_all
  | cons a l ih =>
      intro l2 hb1 hb2 h
      cases l2 with
      | nil => simp_all
      | cons b l2' =>
          simp only [List.map_cons, List.cons.injEq] at h
          have ha : a = b :=
            subDigit_injOn (hb1 a (by simp)) (hb2 b (by simp)) h.1
          have hl : l = l2' :=
            ih l2' (fun x hx => hb1 x (by simp [hx]))
              (fun x hx => hb2 x (by simp [hx])) h.2
          simp [ha, hl]

theorem ofDigits_digitsFuel : ∀ (f n : Nat), n ≤ f →
    Nat.ofDigits 10 (digitsFuel f n) = n := by
  intro f
  induction f with
  | zero =>
      intro n h
      interval_cases n
      simp [digitsFuel, Nat.ofDigits]
  | succ f ih =>
      intro n h
      by_cases h0 : n = 0
      · simp [digitsFuel, h0, Nat.ofDigits]
      · have hdiv : n / 10 ≤ f := by
          have := Nat.div_lt_self (Nat.pos_of_ne_zero h0) (by norm_num : 1 < 10)
          omega
        have hrec := ih (n / 10) hdiv
        simp only [digitsFuel, h0, if_false, Nat.ofDigits_cons, hrec]
        omega

theorem digitsFuel_lt : ∀ (f n x : Nat), x ∈ digitsFuel f n → x < 10 := by
  intro f
  induction f with
  | zero => intro n x h; simp [digitsFuel] at h
  | succ f ih =>
      intro n x h
      by_cases h0 : n = 0
      · simp [digitsFuel, h0] at h
      · simp only [digitsFuel, h0, if_false, List.mem_cons] at h
        rcases h with h | h
        · subst h; exact Nat.mod_lt _ (by norm_num)
        · exact ih _ _ h

theorem natDigits_injective : Function.Injective natDigits := by
  intro a b h
  calc a = Nat.ofDigits 10 (digitsFuel a a) := (ofDigits_digitsFuel a a le_rfl).symm
    _ = Nat.ofDigits 10 (digitsFuel b b) := by rw [show digitsFuel a a = digitsFuel b b from h]
    _ = b := ofDigits_digitsFuel b b le_rfl

theorem toSub_injective : Function.Injective toSub := by
  intro a b h
  unfold toSub at h
  have hdata : (natDigits a).reverse.map subDigit
      = (natDigits b).reverse.map subDigit := by
    have := congrArg String.data h
    simpa using this
  have hrev : (natDigits a).reverse = (natDigits b).reverse :=
    map_subDigit_inj _ _
      (fun x hx => digitsFuel_lt _ _ _ (List.mem_reverse.mp hx))
      (fun x hx => digitsFuel_lt _ _ _ (List.mem_reverse.mp hx))
      hdata
  have hdig : natDigits a = natDigits b := by
    simpa using congrArg List.reverse hrev
  exact natDigits_injective hdig

theorem candidate_injective (hint : String) :
    Function.Injective (fun k => hint ++ toSub k) := by
  intro a b h
  apply toSub_injective
  apply String.ext
  have := congrArg String.data h
  simpa using this

theorem freshAux_not_mem (used : List String) (hint : String) :
    ∀ (fuel k : Nat),
      (∃ j, k ≤ j ∧ j ≤ k + fuel ∧ (hint ++ toSub j) ∉ used) →
      freshAux used hint k fuel ∉ used := by
  intro fuel
  induction fuel with
  | zero =>
      intro k ⟨j, h1, h2, h3⟩
      have hjk : j = k := by omega
      subst hjk
      simpa [freshAux] using h3
  | succ fuel ih =>
      intro k ⟨j, h1, h2, h3⟩
      by_cases hmem : (hint ++ toSub k) ∈ used
      · have hne : j ≠ k := by
          intro hjk; exact h3 (hjk ▸ hmem)
        have : freshAux used hint k (fuel + 1)
            = freshAux used hint (k + 1) fuel := by
          simp [freshAux, hmem]
        rw [this]
        exact ih (k + 1) ⟨j, by omega, by omega, h3⟩
      · have : freshAux used hint k (fuel + 1) = hint ++ toSub k := by
          simp [freshAux, hmem]
        rw [this]
        exact hmem

theorem exists_fresh_candidate (used : List String) (hint : String) :
    ∃ j, 1 ≤ j ∧ j ≤ 1 + used.length ∧ (hint ++ toSub j) ∉ used := by
  by_contra hcon
  push_neg at hcon
  have hsub : (Finset.Icc 1 (used.length + 1)).image
      (fun k => hint ++ toSub k) ⊆ used.toFinset := by
    intro s hs
    rcases Finset.mem_image.mp hs with ⟨j, hj, rfl⟩
    rcases Finset.mem_Icc.mp hj with ⟨hj1, hj2⟩
    exact List.mem_toFinset.mpr (hcon j hj1 (by omega))
  have hcard : ((Finset.Icc 1 (used.length + 1)).image
      (fun k => hint ++ toSub k)).card = used.length + 1 := by
    rw [Finset.card_image_of_injective _ (candidate_injective hint)]
    simp [Nat.card_Icc]
  have hle : used.length + 1 ≤ used.toFinset.card := by
    rw [← hcard]
    exact Finset.card_le_card hsub
  have := List.toFinset_card_le used
  omega

/-- The generated name avoids every name in the used set: the heart of the
capture-avoidance guarantee of read-back. -/
theorem fresh_not_mem (used : List String) (hint : String) :
    fresh used hint ∉ used := by
  unfold fresh
  by_cases hmem : hint ∈ used
  · simp only [hmem, if_true]
    apply freshAux_not_mem
    rcases exists_fresh_candidate used hint with ⟨j, h1, h2, h3⟩
    exact ⟨j, h1, by omega, h3⟩
  · simp [hmem]

/-- Failure values: the type-error taxonomy of spec section 7, the
"No readBackType for ..." exceptions of `value.ts`, fuel exhaustion of the
shallow embedding, and programmer-error stuckness. -/
inductive Err where
  | outOfFuel : Err
  | unboundVariable (name : String) : Err
  | notAFunctionType : Err
  | notAPairType : Err
  | notAUniverse : Err
  | eliminatorTargetMismatch : Err
  | typeMismatch : Err
  | duplicateBinderName : Err
  | incompleteTerm : Err
  | noReadBackType (variant : String) : Err
  | stuck (msg : String) : Err
  deriving DecidableEq, Repr

mutual

/-- `now` as used read-only inside evaluation: the base `Value.now`
returns the receiver; a `Delay` looks up its cell, returning forced
content directly and evaluating unforced content via `undelay`
(`valOf` then `now`, per `DelayClosure.undelay` in `value.ts`).  The
memoizing write of `Delay.now` is modelled separately by `now` below. -/
def nowRO : Nat → Store → Value → Except Err Value
  | 0, _, _ => .error .outOfFuel
  | fuel + 1, σ, v =>
      match v with
      | .delay cid =>
          match σ.get cid with
          | some (.forced w) => .ok w
          | some (.unforced dc) => do
              let w ← valOf fuel σ dc.env dc.expr
              nowRO fuel σ w
          | none => .error (.stuck "dangling delay cell")
      | _ => .ok v

/-- Modelled from the spec: the evaluator `valOf(environment, coreExpr)`
of spec section 4.1; the file `evaluator/evaluator.ts` is not among the
provided sources.  Variables look up the nearest binding; `which-Nat`
forces its target, routing `zero` to the base and `add1(n)` to the step
applied directly to the predecessor `n` (spec section 8 oracle); neutral
targets build the corresponding neutral eliminator node. -/
def valOf : Nat → Store → Env → Core → Except Err Value
  | 0, _, _, _ => .error .outOfFuel
  | fuel + 1, σ, env, e =>
      match e with
      | .universe => .ok .universe
      | .nat => .ok .nat
      | .zero => .ok .zero
      | .add1 n => do .ok (.add1 (← valOf fuel σ env n))
      | .whichNat t b s => do
          let tv ← valOf fuel σ env t
          let tn ← nowRO fuel σ tv
          match tn with
          | .zero => valOf fuel σ env b
          | .add1 n => do
              let sv ← valOf fuel σ env s
              doApp fuel σ sv n
          | .neutral _ ne => do
              let bv ← valOf fuel σ env b
              let sv ← valOf fuel σ env s
              -- the carried type approximates the base's type, which the
              -- elaborated core does not record in this fragment
              .ok (.neutral .nat (.nwhichNat ne bv sv))
          | _ => .error (.stuck "which-Nat target is not a Nat")
      | .pi x a r => do .ok (.pi x (← valOf fuel σ env a) (.mk env x r))
      | .lambda x b => .ok (.lambda x (.mk env x b))
      | .app f a => do
          let fv ← valOf fuel σ env f
          let av ← valOf fuel σ env a
          doApp fuel σ fv av
      | .sigma x a d => do .ok (.sigma x (← valOf fuel σ env a) (.mk env x d))
      | .cons a d => do .ok (.cons (← valOf fuel σ env a) (← valOf fuel σ env d))
      | .car p => do doCar fuel σ (← valOf fuel σ env p)
      | .cdr p => do doCdr fuel σ (← valOf fuel σ env p)
      | .the _ expr => valOf fuel σ env expr
      | .varName x =>
          match env.lookup x with
          | some v => .ok v
          | none => .error (.unboundVariable x)
      | .atom => .ok .atom
      | .quote s => .ok (.quote s)
      | .trivial => .ok .trivial
      | .sole => .ok .sole
      | .absurd => .ok .absurd
      | .list t => do .ok (.list (← valOf fuel σ env t))
      | .nil => .ok .nil
      | .listCons h t => do
          .ok (.listCons (← valOf fuel σ env h) (← valOf fuel σ env t))
      | .equal t l r => do
          .ok (.equal (← valOf fuel σ env t) (← valOf fuel σ env l)
            (← valOf fuel σ env r))
      | .same expr => do .ok (.same (← valOf fuel σ env expr))
      | .vec t n => do .ok (.vec (← valOf fuel σ env t) (← valOf fuel σ env n))
      | .vecNil => .ok .vecNil
      | .vecCons h t => do
          .ok (.vecCons (← valOf fuel σ env h) (← valOf fuel σ env t))
      | .either l r => do
          .ok (.either (← valOf fuel σ env l) (← valOf fuel σ env r))
      | .left expr => do .ok (.left (← valOf fuel σ env expr))
      | .right expr => do .ok (.right (← valOf fuel σ env expr))

/-- Modelled from the spec: applying a closure "extends the captured
environment and evaluates" (spec section 3). -/
def valOfClosure : Nat → Store → Closure → Value → Except Err Value
  | 0, _, _, _ => .error .outOfFuel
  | fuel + 1, σ, .mk env x body, v => valOf fuel σ (.cons x v env) body

/-- Modelled from the spec: semantic application (spec section 4.1):
force the function; a Lambda applies its closure, a Neutral of Pi type
builds a neutral application node carrying the now-known result type. -/
def doApp : Nat → Store → Value → Value → Except Err Value
  | 0, _, _, _ => .error .outOfFuel
  | fuel + 1, σ, f, a => do
      let fn ← nowRO fuel σ f
      match fn with
      | .lambda _ clos => valOfClosure fuel σ clos a
      | .neutral t ne => do
          let tn ← nowRO fuel σ t
          match tn with
          | .pi _ argT resC => do
              let rt ← valOfClosure fuel σ resC a
              .ok (.neutral rt (.napp ne argT a))
          | _ => .error .notAFunctionType
      | _ => .error .notAFunctionType

/-- Modelled from the spec: semantic first projection (spec section 4.1). -/
def doCar : Nat → Store → Value → Except Err Value
  | 0, _, _ => .error .outOfFuel
  | fuel + 1, σ, v => do
      let vn ← nowRO fuel σ v
      match vn with
      | .cons a _ => .ok a
      | .neutral t ne => do
          let tn ← nowRO fuel σ t
          match tn with
          | .sigma _ carT _ => .ok (.neutral carT (.ncar ne))
          | _ => .error .notAPairType
      | _ => .error .notAPairType

/-- Modelled from the spec: semantic second projection (spec
section 4.1); the result type of a neutral `cdr` is the cdr-type closure
applied to the neutral `car`. -/
def doCdr : Nat → Store → Value → Except Err Value
  | 0, _, _ => .error .outOfFuel
  | fuel + 1, σ, v => do
      let vn ← nowRO fuel σ v
      match vn with
      | .cons _ d => .ok d
      | .neutral t ne => do
          let tn ← nowRO fuel σ t
          match tn with
          | .sigma _ carT cdrC => do
              let rt ← valOfClosure fuel σ cdrC (.neutral carT (.ncar ne))
              .ok (.neutral rt (.ncdr ne))
          | _ => .error .notAPairType
      | _ => .error .notAPairType

/-- Modelled from the spec: the term-level read-back
`readBack(context, type, value)` of spec section 4.2; the file
`evaluator/utils.ts` is not among the provided sources.  Dispatches first
on the forced type: Pi eta-expands (the fresh binder hint is the value's
own lambda name when there is one, per the repository's test oracle,
otherwise the Pi's), Sigma produces `cons (car v) (cdr v)`, Trivial
produces `sole`, Absurd annotates the neutral; other types dispatch on
the forced value. -/
def readBack : Nat → Ctx → Store → Value → Value → Except Err Core
  | 0, _, _, _, _ => .error .outOfFuel
  | fuel + 1, ctx, σ, tp, v => do
      let tn ← nowRO fuel σ tp
      match tn with
      | .pi x argT resC => do
          let vn ← nowRO fuel σ v
          let hint := match vn with | .lambda y _ => y | _ => x
          let y := fresh (ctxNames ctx) hint
          let xv := Value.neutral argT (.nvar y)
          let bodyT ← valOfClosure fuel σ resC xv
          let appv ← doApp fuel σ v xv
          let body ← readBack fuel (bindFree ctx y argT) σ bodyT appv
          .ok (.lambda y body)
      | .sigma _ carT cdrC => do
          let carv ← doCar fuel σ v
          let cdrv ← doCdr fuel σ v
          let cdrT ← valOfClosure fuel σ cdrC carv
          let care ← readBack fuel ctx σ carT carv
          let cdre ← readBack fuel ctx σ cdrT cdrv
          .ok (.cons care cdre)
      | .trivial => .ok .sole
      | .absurd => do
          let vn ← nowRO fuel σ v
          match vn with
          | .neutral _ ne => do
              .ok (.the .absurd (← readBackNeutral fuel ctx σ ne))
          | _ => .error (.stuck "read back at Absurd: not neutral")
      | .universe => readBackType fuel ctx σ v
      | .nat => do
          let vn ← nowRO fuel σ v
          match vn with
          | .zero => .ok .zero
          | .add1 n => do .ok (.add1 (← readBack fuel ctx σ .nat n))
          | .neutral _ ne => readBackNeutral fuel ctx σ ne
          | _ => .error (.stuck "read back at Nat")
      | .atom => do
          let vn ← nowRO fuel σ v
          match vn with
          | .quote s => .ok (.quote s)
          | .neutral _ ne => readBackNeutral fuel ctx σ ne
          | _ => .error (.stuck "read back at Atom")
      | .list entryT => do
          let vn ← nowRO fuel σ v
          match vn with
          | .nil => .ok .nil
          | .listCons h t => do
              .ok (.listCons (← readBack fuel ctx σ entryT h)
                (← readBack fuel ctx σ (.list entryT) t))
          | .neutral _ ne => readBackNeutral fuel ctx σ ne
          | _ => .error (.stuck "read back at List")
      | .equal eqT _ _ => do
          let vn ← nowRO fuel σ v
          match vn with
          | .same w => do .ok (.same (← readBack fuel ctx σ eqT w))
          | .neutral _ ne => readBackNeutral fuel ctx σ ne
          | _ => .error (.stuck "read back at Equal")
      | .vec entryT len => do
          let vn ← nowRO fuel σ v
          match vn with
          | .vecNil => .ok .vecNil
          | .vecCons h t => do
              let ln ← nowRO fuel σ len
              match ln with
              | .add1 k => do
                  .ok (.vecCons (← readBack fuel ctx σ entryT h)
                    (← readBack fuel ctx σ (.vec entryT k) t))
              | _ => .error (.stuck "vec:: with non-add1 length")
          | .neutral _ ne => readBackNeutral fuel ctx σ ne
          | _ => .error (.stuck "read back at Vec")
      | .either leftT rightT => do
          let vn ← nowRO fuel σ v
          match vn with
          | .left w => do .ok (.left (← readBack fuel ctx σ leftT w))
          | .right w => do .ok (.right (← readBack fuel ctx σ rightT w))
          | .neutral _ ne => readBackNeutral fuel ctx σ ne
          | _ => .error (.stuck "read back at Either")
      | .neutral _ _ => do
          let vn ← nowRO fuel σ v
          match vn with
          | .neutral _ ne => readBackNeutral fuel ctx σ ne
          | _ => .error (.stuck "read back at neutral type")
      | _ => .error (.stuck "read back at a non-type")

/-- Embedded from `value.ts`: the per-variant `readBackType(context)`
overrides, one arm per class.  Type formers produce their core form
(`Pi`/`Sigma` choose a fresh binder and read the dependent part back in
the extended context, exactly as their overrides do); every constructor
form throws `No readBackType for <variant>`; `Delay` forces and
dispatches; `Neutral` reads back its spine. -/
def readBackType : Nat → Ctx → Store → Value → Except Err Core
  | 0, _, _, _ => .error .outOfFuel
  | fuel + 1, ctx, σ, v =>
      match v with
      | .delay _ => do readBackType fuel ctx σ (← nowRO fuel σ v)
      | .quote _ => .error (.noReadBackType "Quote")
      | .add1 _ => .error (.noReadBackType "Add1")
      | .pi x argT resC => do
          let Aexpr ← readBackType fuel ctx σ argT
          let y := fresh (ctxNames ctx) x
          let excludeNameCtx := bindFree ctx y argT
          let Bv ← valOfClosure fuel σ resC (.neutral argT (.nvar y))
          let Bexpr ← readBackType fuel excludeNameCtx σ Bv
          .ok (.pi y Aexpr Bexpr)
      | .lambda _ _ => .error (.noReadBackType "Lambda")
      | .sigma x carT cdrC => do
          let Aexpr ← readBackType fuel ctx σ carT
          let y := fresh (ctxNames ctx) x
          let excludeNameCtx := bindFree ctx y carT
          let Dv ← valOfClosure fuel σ cdrC (.neutral carT (.nvar y))
          let Dexpr ← readBackType fuel excludeNameCtx σ Dv
          .ok (.sigma y Aexpr Dexpr)
      | .cons _ _ => .error (.noReadBackType "Cons")
      | .listCons _ _ => .error (.noReadBackType "ListCons")
      | .list entryT => do .ok (.list (← readBackType fuel ctx σ entryT))
      | .equal eqT lhs rhs => do
          .ok (.equal (← readBackType fuel ctx σ eqT)
            (← readBack fuel ctx σ eqT lhs) (← readBack fuel ctx σ eqT rhs))
      | .same _ => .error (.noReadBackType "Same")
      | .vec entryT len => do
          .ok (.vec (← readBackType fuel ctx σ entryT)
            (← readBack fuel ctx σ .nat len))
      | .vecCons _ _ => .error (.noReadBackType "VecCons")
      | .either leftT rightT => do
          .ok (.either (← readBackType fuel ctx σ leftT)
            (← readBackType fuel ctx σ rightT))
      | .left _ => .error (.noReadBackType "Left")
      | .right _ => .error (.noReadBackType "Right")
      | .neutral _ ne => readBackNeutral fuel ctx σ ne
      | .universe => .ok .universe
      | .nat => .ok .nat
      | .zero => .error (.noReadBackType "Zero")
      | .atom => .ok .atom
      | .trivial => .ok .trivial
      | .sole => .error (.noReadBackType "Sole")
      | .nil => .error (.noReadBackType "Nil")
      | .absurd => .ok .absurd
      | .vecNil => .error (.noReadBackType "VecNil")

/-- Modelled from the spec: read a neutral spine back into the
application/eliminator chain it describes (spec section 4.2); the file
`types/neutral.ts` is not among the provided sources.  The which-Nat
spine node is carried but its read-back is outside what the claims
exercise and is left unmodelled. -/
def readBackNeutral : Nat → Ctx → Store → Neutral → Except Err Core
  | 0, _, _, _ => .error .outOfFuel
  | fuel + 1, ctx, σ, ne =>
      match ne with
      | .nvar x => .ok (.varName x)
      | .napp r randT rand => do
          .ok (.app (← readBackNeutral fuel ctx σ r)
            (← readBack fuel ctx σ randT rand))
      | .ncar p => do .ok (.car (← readBackNeutral fuel ctx σ p))
      | .ncdr p => do .ok (.cdr (← readBackNeutral fuel ctx σ p))
      | .nwhichNat _ _ _ => .error (.stuck "which-Nat spine read-back")

end

/-- Embedded from `value.ts`, `Delay.now` together with the base
`Value.now`: a non-Delay value returns itself; a `Delay` whose box holds a
`DelayClosure` computes `undelay()` (evaluate, then `now` the result),
stores the computed value back into the shared cell and returns it; a
`Delay` whose box already holds a value returns that content unchanged.
The third component counts evaluator (`undelay`) invocations performed by
the call, so that "no re-invocation" is observable in theorems. -/
def now : Nat → Store → Value → Except Err (Value × Store × Nat)
  | 0, _, _ => .error .outOfFuel
  | fuel + 1, σ, v =>
      match v with
      | .delay cid =>
          match σ.get cid with
          | some (.unforced dc) => do
              let w ← valOf fuel σ dc.env dc.expr
              let (r, σ1, k) ← now fuel σ w
              .ok (r, σ1.set cid (.forced r), k + 1)
          | some (.forced w) => .ok (w, σ, 0)
          | none => .error (.stuck "dangling delay cell")
      | _ => .ok (v, σ, 0)

/-- Modelled from the spec: the definitional-equality check
`convert(context, type, v1, v2)` of spec section 4.3: equal iff the two
read-back forms are alpha-equivalent core expressions; the implementing
file is not among the provided sources. -/
def convert (fuel : Nat) (ctx : Ctx) (σ : Store) (tp v1 v2 : Value) :
    Except Err Bool := do
  let e1 ← readBack fuel ctx σ tp v1
  let e2 ← readBack fuel ctx σ tp v2
  .ok (alphaEquiv e1 e2)

/-- Type of a name in the context (nearest binding), free or defined. -/
def ctxType : Ctx → String → Option Value
  | [], _ => none
  | (y, .free t) :: rest, x => if y = x then some t else ctxType rest x
  | (y, .definition t _) :: rest, x => if y = x then some t else ctxType rest x

mutual

/-- Modelled from the spec: the synthesis judgment of spec section 4.4
(the checker file is not among the provided sources), restricted to the
constructs the claims exercise: variable references, `the` annotations,
Nat literals, application, and the pair eliminators whose target type
must be a Sigma (`EliminatorTargetMismatch` otherwise). -/
def synthesize : Nat → Ctx → Store → Core → Except Err (Value × Core)
  | 0, _, _, _ => .error .outOfFuel
  | fuel + 1, ctx, σ, e =>
      match e with
      | .varName x =>
          match ctxType ctx x with
          | some t => .ok (t, .varName x)
          | none => .error (.unboundVariable x)
      | .the t expr => do
          let tv ← valOf fuel σ (ctxToEnv ctx) t
          let e' ← check fuel ctx σ expr tv
          .ok (tv, .the t e')
      | .zero => .ok (.nat, .zero)
      | .add1 n => do
          let n' ← check fuel ctx σ n .nat
          .ok (.nat, .add1 n')
      | .car p => do
          let pres ← synthesize fuel ctx σ p
          let ptn ← nowRO fuel σ pres.1
          match ptn with
          | .sigma _ carT _ => .ok (carT, .car pres.2)
          | _ => .error .eliminatorTargetMismatch
      | .cdr p => do
          let pres ← synthesize fuel ctx σ p
          let ptn ← nowRO fuel σ pres.1
          match ptn with
          | .sigma _ _ cdrC => do
              let pv ← valOf fuel σ (ctxToEnv ctx) pres.2
              let carv ← doCar fuel σ pv
              let cdrT ← valOfClosure fuel σ cdrC carv
              .ok (cdrT, .cdr pres.2)
          | _ => .error .eliminatorTargetMismatch
      | .app f a => do
          let fres ← synthesize fuel ctx σ f
          let ftn ← nowRO fuel σ fres.1
          match ftn with
          | .pi _ argT resC => do
              let a' ← check fuel ctx σ a argT
              let av ← valOf fuel σ (ctxToEnv ctx) a'
              let rt ← valOfClosure fuel σ resC av
              .ok (rt, .app fres.2 a')
          | _ => .error .notAFunctionType
      | .quote s => .ok (.atom, .quote s)
      | _ => .error (.stuck "synthesize: outside the modelled fragment")

/-- Modelled from the spec: the checking judgment of spec section 4.4,
restricted to the constructs the claims exercise.  A lambda checked
against a Pi binds its parameter over the context (lookup finds the
nearest binding, so an inner duplicate shadows the outer one) and checks
the body against the instantiated result type; constructs with an evident
type switch to synthesis and reconcile the two types up to
alpha-equivalence of their read-backs. -/
def check : Nat → Ctx → Store → Core → Value → Except Err Core
  | 0, _, _, _, _ => .error .outOfFuel
  | fuel + 1, ctx, σ, e, tp =>
      match e with
      | .lambda x b => do
          let tn ← nowRO fuel σ tp
          match tn with
          | .pi _ argT resC => do
              let xv := Value.neutral argT (.nvar x)
              let bt ← valOfClosure fuel σ resC xv
              let b' ← check fuel (bindFree ctx x argT) σ b bt
              .ok (.lambda x b')
          | _ => .error .typeMismatch
      | .cons a d => do
          let tn ← nowRO fuel σ tp
          match tn with
          | .sigma _ carT cdrC => do
              let a' ← check fuel ctx σ a carT
              let av ← valOf fuel σ (ctxToEnv ctx) a'
              let dt ← valOfClosure fuel σ cdrC av
              let d' ← check fuel ctx σ d dt
              .ok (.cons a' d')
          | _ => .error .typeMismatch
      | .sole => do
          let tn ← nowRO fuel σ tp
          match tn with
          | .trivial => .ok .sole
          | _ => .error .typeMismatch
      | e => do
          let res ← synthesize fuel ctx σ e
          let te ← readBackType fuel ctx σ res.1
          let tpe ← readBackType fuel ctx σ tp
          if alphaEquiv te tpe then .ok res.2 else .error .typeMismatch

end

/- ### Helper lemmas about the store -/

theorem Store.length_set (σ : Store) (i : Nat) (c : Cell) :
    List.length (σ.set i c) = List.length σ := List.length_set ..

theorem Store.get_set_self (σ : Store) (i : Nat) (c : Cell)
    (h : i < List.length σ) : (σ.set i c).get i = some c :=
  List.getElem?_set_eq_of_lt c h

theorem Store.get_set_ne (σ : Store) {i j : Nat} (c : Cell) (h : i ≠ j) :
    (σ.set i c).get j = σ.get j := List.getElem?_set_ne h

theorem Store.lt_length_of_get (σ : Store) {i : Nat} {c : Cell}
    (h : σ.get i = some c) : i < List.length σ :=
  (List.getElem?_eq_some.mp h).1

/- ### Classification of the value variants, following `value.ts` -/

/-- The variants whose `readBackType` override in `value.ts` is a
`throw new Error("No readBackType for ...")`: the constructor forms. -/
def isConstructorForm : Value → Bool
  | .quote _ => true
  | .add1 _ => true
  | .lambda _ _ => true
  | .cons _ _ => true
  | .listCons _ _ => true
  | .same _ => true
  | .vecCons _ _ => true
  | .left _ => true
  | .right _ => true
  | .zero => true
  | .sole => true
  | .nil => true
  | .vecNil => true
  | _ => false

/-- The variants that denote types: their `readBackType` override in
`value.ts` produces a core expression. -/
def isTypeHead : Value → Bool
  | .universe => true
  | .nat => true
  | .atom => true
  | .trivial => true
  | .absurd => true
  | .pi _ _ _ => true
  | .sigma _ _ _ => true
  | .list _ => true
  | .vec _ _ => true
  | .either _ _ => true
  | .equal _ _ _ => true
  | .neutral _ _ => true
  | _ => false

/-- The class name of a value variant, as it appears in the
`No readBackType for <name>.` exception messages of `value.ts`. -/
def headName : Value → String
  | .delay _ => "Delay"
  | .quote _ => "Quote"
  | .add1 _ => "Add1"
  | .pi _ _ _ => "Pi"
  | .lambda _ _ => "Lambda"
  | .sigma _ _ _ => "Sigma"
  | .cons _ _ => "Cons"
  | .listCons _ _ => "ListCons"
  | .list _ => "List"
  | .equal _ _ _ => "Equal"
  | .same _ => "Same"
  | .vec _ _ => "Vec"
  | .vecCons _ _ => "VecCons"
  | .either _ _ => "Either"
  | .left _ => "Left"
  | .right _ => "Right"
  | .neutral _ _ => "Neutral"
  | .universe => "Universe"
  | .nat => "Nat"
  | .zero => "Zero"
  | .atom => "Atom"
  | .trivial => "Trivial"
  | .sole => "Sole"
  | .nil => "Nil"
  | .absurd => "Absurd"
  | .vecNil => "VecNil"

/-- The class names of the constructor-form variants. -/
def isCtorName (s : String) : Bool :=
  s == "Quote" || s == "Add1" || s == "Lambda" || s == "Cons" ||
  s == "ListCons" || s == "Same" || s == "VecCons" || s == "Left" ||
  s == "Right" || s == "Zero" || s == "Sole" || s == "Nil" || s == "VecNil"

/- ### The `noReadBackType` errors always name a constructor form -/

/-- The computation never fails with a `noReadBackType` error. -/
def NotRBT {α : Type} (x : Except Err α) : Prop :=
  ∀ s, x ≠ .error (.noReadBackType s)

/-- Any `noReadBackType` failure of the computation names one of the
constructor-form variants. -/
def RBTNamed {α : Type} (x : Except Err α) : Prop :=
  ∀ s, x = .error (.noReadBackType s) → isCtorName s = true

theorem notRBT_ok {α : Type} (a : α) : NotRBT (Except.ok a : Except Err α) :=
  fun _ h => Except.noConfusion h

theorem notRBT_error_of {α : Type} {e : Err}
    (h : ∀ s, e ≠ .noReadBackType s) : NotRBT (Except.error e : Except Err α) :=
  fun s hh => h s (by injection hh)

theorem notRBT_bind {α β : Type} {m : Except Err α} {k : α → Except Err β}
    (hm : NotRBT m) (hk : ∀ a, NotRBT (k a)) : NotRBT (m >>= k) := by
  cases m with
  | error e =>
      intro s h
      rw [show (Except.error e >>= k) = (Except.error e : Except Err β) from rfl] at h
      injection h with h2
      exact hm s (by rw [h2])
  | ok a =>
      intro s h
      rw [show (Except.ok a >>= k) = k a from rfl] at h
      exact hk a s h

theorem rbtNamed_ok {α : Type} (a : α) : RBTNamed (Except.ok a : Except Err α) :=
  fun _ h => Except.noConfusion h

theorem rbtNamed_of_notRBT {α : Type} {x : Except Err α}
    (h : NotRBT x) : RBTNamed x := fun s hh => absurd hh (h s)

theorem rbtNamed_error_of {α : Type} {e : Err}
    (h : ∀ s, e = .noReadBackType s → isCtorName s = true) :
    RBTNamed (Except.error e : Except Err α) :=
  fun s hh => h s (by injection hh)

theorem rbtNamed_bind {α β : Type} {m : Except Err α} {k : α → Except Err β}
    (hm : RBTNamed m) (hk : ∀ a, RBTNamed (k a)) : RBTNamed (m >>= k) := by
  cases m with
  | error e =>
      intro s h
      rw [show (Except.error e >>= k) = (Except.error e : Except Err β) from rfl] at h
      injection h with h2
      exact hm s (by rw [h2])
  | ok a =>
      intro s h
      rw [show (Except.ok a >>= k) = k a from rfl] at h
      exact hk a s h

/-- Discriminator for the `noReadBackType` error variant. -/
def Err.isNoRBT : Err → Bool
  | .noReadBackType _ => true
  | _ => false

theorem notRBT_error_not {α : Type} (e : Err) (he : Err.isNoRBT e = false) :
    NotRBT (Except.error e : Except Err α) := by
  intro s h
  injection h with h2
  subst h2
  simp [Err.isNoRBT] at he

theorem rbtNamed_error_not {α : Type} (e : Err) (he : Err.isNoRBT e = false) :
    RBTNamed (Except.error e : Except Err α) :=
  rbtNamed_of_notRBT (notRBT_error_not e he)

theorem rbtNamed_error_name {α : Type} (s0 : String)
    (hs : isCtorName s0 = true) :
    RBTNamed (Except.error (Err.noReadBackType s0) : Except Err α) := by
  intro s h
  injection h with h2
  injection h2 with h3
  exact h3 ▸ hs

/-- The `No readBackType` exception is raised only by the thirteen
constructor-form variants: the evaluation family never fails with it, and
any such failure anywhere in read-back names a constructor form. -/
theorem noRBT_invariant : ∀ fuel : Nat,
    (∀ σ v, NotRBT (nowRO fuel σ v)) ∧
    (∀ σ env e, NotRBT (valOf fuel σ env e)) ∧
    (∀ σ c v, NotRBT (valOfClosure fuel σ c v)) ∧
    (∀ σ f a, NotRBT (doApp fuel σ f a)) ∧
    (∀ σ v, NotRBT (doCar fuel σ v)) ∧
    (∀ σ v, NotRBT (doCdr fuel σ v)) ∧
    (∀ ctx σ t v, RBTNamed (readBack fuel ctx σ t v)) ∧
    (∀ ctx σ v, RBTNamed (readBackType fuel ctx σ v)) ∧
    (∀ ctx σ n, RBTNamed (readBackNeutral fuel ctx σ n)) := by
  intro fuel
  induction fuel with
  | zero =>
      refine ⟨?_, ?_, ?_, ?_, ?_, ?_, ?_, ?_, ?_⟩ <;> intros <;>
        first
          | exact notRBT_error_not _ rfl
          | exact rbtNamed_error_not _ rfl
  | succ fuel ih =>
      obtain ⟨ihNow, ihVal, ihClo, ihApp, ihCar, ihCdr, ihRB, ihRBT, ihRBN⟩ := ih
      refine ⟨?_, ?_, ?_, ?_, ?_, ?_, ?_, ?_, ?_⟩
      · intro σ v
        cases v <;> simp only [nowRO] <;>
          repeat' first
            | exact notRBT_ok _
            | exact notRBT_error_not _ rfl
            | exact ihNow _ _
            | exact ihVal _ _ _
            | apply notRBT_bind
            | split
            | intro _
      · intro σ env e
        cases e <;> simp only [valOf] <;>
          repeat' first
            | exact notRBT_ok _
            | exact notRBT_error_not _ rfl
            | exact ihNow _ _
            | exact ihVal _ _ _
            | exact ihClo _ _ _
            | exact ihApp _ _ _
            | exact ihCar _ _
            | exact ihCdr _ _
            | apply notRBT_bind
            | split
            | intro _
      · intro σ c v
        cases c
        simp only [valOfClosure]
        exact ihVal _ _ _
      · intro σ f a
        simp only [doApp]
        repeat' first
          | exact notRBT_ok _
          | exact notRBT_error_not _ rfl
          | exact ihNow _ _
          | exact ihClo _ _ _
          | apply notRBT_bind
          | split
          | intro _
      · intro σ v
        simp only [doCar]
        repeat' first
          | exact notRBT_ok _
          | exact notRBT_error_not _ rfl
          | exact ihNow _ _
          | exact ihClo _ _ _
          | apply notRBT_bind
          | split
          | intro _
      · intro σ v
        simp only [doCdr]
        repeat' first
          | exact notRBT_ok _
          | exact notRBT_error_not _ rfl
          | exact ihNow _ _
          | exact ihClo _ _ _
          | apply notRBT_bind
          | split
          | intro _
      · intro ctx σ t v
        simp only [readBack]
        repeat' first
          | exact rbtNamed_ok _
          | exact rbtNamed_error_not _ rfl
          | exact rbtNamed_of_notRBT (ihNow _ _)
          | exact rbtNamed_of_notRBT (ihVal _ _ _)
          | exact rbtNamed_of_notRBT (ihClo _ _ _)
          | exact rbtNamed_of_notRBT (ihApp _ _ _)
          | exact rbtNamed_of_notRBT (ihCar _ _)
          | exact rbtNamed_of_notRBT (ihCdr _ _)
          | exact ihRB _ _ _ _
          | exact ihRBT _ _ _
          | exact ihRBN _ _ _
          | apply rbtNamed_bind
          | split
          | intro _
      · intro ctx σ v
        cases v <;> simp only [readBackType] <;>
          repeat' first
            | exact rbtNamed_ok _
            | exact rbtNamed_error_not _ rfl
            | exact rbtNamed_error_name _ rfl
            | exact rbtNamed_of_notRBT (ihNow _ _)
            | exact rbtNamed_of_notRBT (ihVal _ _ _)
            | exact rbtNamed_of_notRBT (ihClo _ _ _)
            | exact ihRB _ _ _ _
            | exact ihRBT _ _ _
            | exact ihRBN _ _ _
            | apply rbtNamed_bind
            | split
            | intro _
      · intro ctx σ n
        cases n <;> simp only [readBackNeutral] <;>
          repeat' first
            | exact rbtNamed_ok _
            | exact rbtNamed_error_not _ rfl
            | exact ihRB _ _ _ _
            | exact ihRBN _ _ _
            | apply rbtNamed_bind
            | split
            | intro _

/- ### Generic Except helpers -/

theorem except_bind_ok {α β : Type} {m : Except Err α} {k : α → Except Err β}
    {b : β} : (m >>= k) = .ok b ↔ ∃ a, m = .ok a ∧ k a = .ok b := by
  cases m with
  | error e =>
      rw [show (Except.error e >>= k) = (Except.error e : Except Err β) from rfl]
      simp
  | ok a =>
      rw [show (Except.ok a >>= k) = k a from rfl]
      simp

theorem except_bind_ok_eq {α β : Type} {m : Except Err α} {k : α → Except Err β}
    {a : α} (h : m = .ok a) : (m >>= k) = k a := by
  subst h
  rfl

/- ### Alpha-equivalence is an equivalence -/

theorem alphaEquiv_refl (e : Core) : alphaEquiv e e = true := by
  simp [alphaEquiv]

theorem alphaEquiv_symm (e1 e2 : Core) : alphaEquiv e1 e2 = alphaEquiv e2 e1 := by
  unfold alphaEquiv
  exact decide_eq_decide.mpr ⟨Eq.symm, Eq.symm⟩

theorem alphaEquiv_trans {e1 e2 e3 : Core} (h1 : alphaEquiv e1 e2 = true)
    (h2 : alphaEquiv e2 e3 = true) : alphaEquiv e1 e3 = true := by
  unfold alphaEquiv at *
  exact decide_eq_true ((of_decide_eq_true h1).trans (of_decide_eq_true h2))

/- ### The claims -/

/-- Claim C2: `convert` is an equivalence relation on values sharing one type —
reflexive, symmetric and transitive — and returns `true` exactly when the
two read-back forms are alpha-equivalent core expressions. -/
theorem convert_is_equivalence (fuel : Nat) (ctx : Ctx) (σ : Store)
    (tp v1 v2 v3 : Value) (e1 e2 e3 : Core)
    (h1 : readBack fuel ctx σ tp v1 = .ok e1)
    (h2 : readBack fuel ctx σ tp v2 = .ok e2)
    (h3 : readBack fuel ctx σ tp v3 = .ok e3) :
    convert fuel ctx σ tp v1 v1 = .ok true ∧
    convert fuel ctx σ tp v1 v2 = convert fuel ctx σ tp v2 v1 ∧
    (convert fuel ctx σ tp v1 v2 = .ok true →
      convert fuel ctx σ tp v2 v3 = .ok true →
      convert fuel ctx σ tp v1 v3 = .ok true) ∧
    (convert fuel ctx σ tp v1 v2 = .ok true ↔ alphaEquiv e1 e2 = true) := by
  have c11 : convert fuel ctx σ tp v1 v1 = .ok (alphaEquiv e1 e1) := by
    unfold convert
    rw [except_bind_ok_eq h1, except_bind_ok_eq h1]
  have c12 : convert fuel ctx σ tp v1 v2 = .ok (alphaEquiv e1 e2) := by
    unfold convert
    rw [except_bind_ok_eq h1, except_bind_ok_eq h2]
  have c21 : convert fuel ctx σ tp v2 v1 = .ok (alphaEquiv e2 e1) := by
    unfold convert
    rw [except_bind_ok_eq h2, except_bind_ok_eq h1]
  have c23 : convert fuel ctx σ tp v2 v3 = .ok (alphaEquiv e2 e3) := by
    unfold convert
    rw [except_bind_ok_eq h2, except_bind_ok_eq h3]
  have c13 : convert fuel ctx σ tp v1 v3 = .ok (alphaEquiv e1 e3) := by
    unfold convert
    rw [except_bind_ok_eq h1, except_bind_ok_eq h3]
  refine ⟨?_, ?_, ?_, ?_⟩
  · rw [c11, alphaEquiv_refl]
  · rw [c12, c21, alphaEquiv_symm]
  · intro hx hy
    rw [c12] at hx
    rw [c23] at hy
    rw [c13]
    injection hx with hx2
    injection hy with hy2
    rw [alphaEquiv_trans hx2 hy2]
  · rw [c12]
    constructor
    · intro hx
      injection hx
    · intro hx
      rw [hx]

/-- Witness for C2 at type Nat with the value `zero`. -/
theorem convert_is_equivalence_witness :
    readBack 5 [] [] Value.nat Value.zero = .ok Core.zero ∧
    (convert 5 [] [] .nat .zero .zero = .ok true ∧
      convert 5 [] [] .nat .zero .zero = convert 5 [] [] .nat .zero .zero ∧
      (convert 5 [] [] .nat .zero .zero = .ok true →
        convert 5 [] [] .nat .zero .zero = .ok true →
        convert 5 [] [] .nat .zero .zero = .ok true) ∧
      (convert 5 [] [] .nat .zero .zero = .ok true ↔
        alphaEquiv Core.zero Core.zero = true)) :=
  ⟨rfl, convert_is_equivalence 5 [] [] .nat .zero .zero .zero
    Core.zero Core.zero Core.zero rfl rfl rfl⟩

/-- Claim C3: `which-Nat(1, 2, λx.x)` evaluates to `zero` — the step is applied
directly to the predecessor — and `which-Nat(0, 2, λx.x)` evaluates to
`add1(add1(zero))`, the base. -/
theorem whichNat_eval_oracle :
    valOf 20 [] .nil (.whichNat (.add1 .zero) (.add1 (.add1 .zero))
      (.lambda "x" (.varName "x"))) = .ok .zero ∧
    valOf 20 [] .nil (.whichNat .zero (.add1 (.add1 .zero))
      (.lambda "x" (.varName "x"))) = .ok (.add1 (.add1 .zero)) :=
  ⟨rfl, rfl⟩

/-- Claim C5: when a Pi or Sigma type value is read back, the binder chosen is
fresh with respect to every name bound (free or defined) in the context,
and the dependent part is read back in the context extended with that
fresh name bound at the argument/car type. -/
theorem readBackType_pi_sigma_fresh_binder (fuel : Nat) (ctx : Ctx)
    (σ : Store) (x : String) (argT : Value) (resC cdrC : Closure) :
    fresh (ctxNames ctx) x ∉ ctxNames ctx ∧
    readBackType (fuel + 1) ctx σ (.pi x argT resC) =
      (do
        let Aexpr ← readBackType fuel ctx σ argT
        let Bv ← valOfClosure fuel σ resC
          (.neutral argT (.nvar (fresh (ctxNames ctx) x)))
        let Bexpr ← readBackType fuel
          (bindFree ctx (fresh (ctxNames ctx) x) argT) σ Bv
        .ok (.pi (fresh (ctxNames ctx) x) Aexpr Bexpr)) ∧
    readBackType (fuel + 1) ctx σ (.sigma x argT cdrC) =
      (do
        let Aexpr ← readBackType fuel ctx σ argT
        let Dv ← valOfClosure fuel σ cdrC
          (.neutral argT (.nvar (fresh (ctxNames ctx) x)))
        let Dexpr ← readBackType fuel
          (bindFree ctx (fresh (ctxNames ctx) x) argT) σ Dv
        .ok (.sigma (fresh (ctxNames ctx) x) Aexpr Dexpr)) :=
  ⟨fresh_not_mem (ctxNames ctx) x, rfl, rfl⟩

/-- Claim C7: checking `(the (-> Nat Nat Nat) (lambda (x x) x))` succeeds, and
the normalized elaboration gives the two binders the distinct internal
names `x` and `x₁`, with the body's reference to `x` resolving to the
innermost binder `x₁`. -/
theorem duplicate_binder_elaboration :
    (do
      let tv ← valOf 20 [] .nil (Core.pi "x" .nat (.pi "x" .nat .nat))
      check 20 [] [] (Core.lambda "x" (.lambda "x" (.varName "x"))) tv)
      = .ok (Core.lambda "x" (.lambda "x" (.varName "x"))) ∧
    (do
      let tv ← valOf 20 [] .nil (Core.pi "x" .nat (.pi "x" .nat .nat))
      let lv ← valOf 20 [] .nil (Core.lambda "x" (.lambda "x" (.varName "x")))
      readBack 20 [] [] tv lv)
      = .ok (.lambda "x" (.lambda "x₁" (.varName "x₁"))) ∧
    ("x" : String) ≠ "x₁" :=
  ⟨rfl, rfl, by decide⟩

/-- Claim C8: when the pair argument of a `car` synthesizes a type that is not a
Sigma type, `synthesize` reports an `EliminatorTargetMismatch` error value
and produces no elaborated result. -/
theorem synthesize_car_nonSigma (fuel : Nat) (ctx : Ctx) (σ : Store)
    (p p' : Core) (tpv tn : Value)
    (h1 : synthesize fuel ctx σ p = .ok (tpv, p'))
    (h2 : nowRO fuel σ tpv = .ok tn)
    (h3 : ∀ a A c, tn ≠ .sigma a A c) :
    synthesize (fuel + 1) ctx σ (.car p) = .error .eliminatorTargetMismatch := by
  simp only [synthesize]
  rw [except_bind_ok_eq h1]
  rw [except_bind_ok_eq h2]
  cases tn <;> first
    | rfl
    | exact absurd rfl (h3 _ _ _)

/-- Witness for C8: `car` of `(the Nat zero)` is rejected with
`EliminatorTargetMismatch`. -/
theorem synthesize_car_nonSigma_witness :
    synthesize 20 [] [] (.car (.the .nat .zero)) =
      .error .eliminatorTargetMismatch :=
  synthesize_car_nonSigma 19 [] [] (.the .nat .zero) (.the .nat .zero)
    .nat .nat rfl rfl (fun _ _ _ h => Value.noConfusion h)

/-- Claim C4: reading back a Neutral value at a Pi type produces a lambda whose
body is the read-back of the value applied to a fresh neutral variable at
the instantiated result type — eta-expansion — and never a bare variable
reference. -/
theorem readBack_pi_neutral_eta (fuel : Nat) (ctx : Ctx) (σ : Store)
    (x : String) (argT : Value) (resC : Closure) (nt : Value) (ne : Neutral)
    (e : Core)
    (h : readBack (fuel + 1) ctx σ (.pi x argT resC) (.neutral nt ne) = .ok e) :
    ∃ body,
      e = .lambda (fresh (ctxNames ctx) x) body ∧
      (∀ z, e ≠ .varName z) ∧
      ∃ bodyT appv,
        valOfClosure fuel σ resC
          (.neutral argT (.nvar (fresh (ctxNames ctx) x))) = .ok bodyT ∧
        doApp fuel σ (.neutral nt ne)
          (.neutral argT (.nvar (fresh (ctxNames ctx) x))) = .ok appv ∧
        readBack fuel (bindFree ctx (fresh (ctxNames ctx) x) argT) σ
          bodyT appv = .ok body := by
  cases fuel with
  | zero =>
      simp only [readBack, nowRO] at h
      exact absurd h (by intro hh; injection hh)
  | succ f =>
      simp only [readBack] at h
      rw [except_bind_ok_eq
        (show nowRO (f + 1) σ (.pi x argT resC) = .ok (.pi x argT resC)
          from rfl)] at h
      obtain ⟨vn, hvn, h⟩ := except_bind_ok.mp h
      rw [show nowRO (f + 1) σ (.neutral nt ne) = .ok (.neutral nt ne)
        from rfl] at hvn
      injection hvn with hvn2
      subst hvn2
      obtain ⟨bodyT, hbT, h⟩ := except_bind_ok.mp h
      obtain ⟨appv, happ, h⟩ := except_bind_ok.mp h
      obtain ⟨body, hbody, h⟩ := except_bind_ok.mp h
      injection h with h2
      refine ⟨body, h2.symm, ?_, bodyT, appv, hbT, happ, hbody⟩
      intro z hz
      rw [← h2] at hz
      exact Core.noConfusion hz

/-- Witness for C4: reading back the neutral variable `f` at type
`Π x:Nat. Nat` yields the eta-expansion `λ x. f x`. -/
theorem readBack_pi_neutral_eta_witness :
    readBack 20 [] [] (.pi "x" .nat (.mk .nil "x" .nat))
        (.neutral (.pi "x" .nat (.mk .nil "x" .nat)) (.nvar "f"))
      = .ok (.lambda "x" (.app (.varName "f") (.varName "x"))) ∧
    ∃ body,
      (Core.lambda "x" (.app (.varName "f") (.varName "x")))
        = .lambda (fresh (ctxNames []) "x") body ∧
      (∀ z, (Core.lambda "x" (.app (.varName "f") (.varName "x")))
        ≠ .varName z) ∧
      ∃ bodyT appv,
        valOfClosure 19 [] (.mk .nil "x" .nat)
          (.neutral .nat (.nvar (fresh (ctxNames []) "x"))) = .ok bodyT ∧
        doApp 19 [] (.neutral (.pi "x" .nat (.mk .nil "x" .nat)) (.nvar "f"))
          (.neutral .nat (.nvar (fresh (ctxNames []) "x"))) = .ok appv ∧
        readBack 19 (bindFree [] (fresh (ctxNames []) "x") .nat) []
          bodyT appv = .ok body :=
  ⟨rfl, readBack_pi_neutral_eta 19 [] [] "x" .nat (.mk .nil "x" .nat)
    (.pi "x" .nat (.mk .nil "x" .nat)) (.nvar "f")
    (.lambda "x" (.app (.varName "f") (.varName "x"))) rfl⟩

/- ### Helper lemmas about `now` -/

/-- Values are Delay cells or not. -/
def isDelay : Value → Bool
  | .delay _ => true
  | _ => false

theorem isDelay_iff {v : Value} : isDelay v = true ↔ ∃ cid, v = .delay cid := by
  cases v <;> simp [isDelay]

/-- Store well-formedness: a forced cell never holds a Delay value.  The
system establishes this by construction: cells are created unforced, and
a forcing write stores a result of `now`. -/
def WFStore (σ : Store) : Prop :=
  ∀ cid w, σ.get cid = some (.forced w) → isDelay w = false

theorem now_nonDelay (fuel : Nat) (σ : Store) (v : Value)
    (hne : isDelay v = false) : now (fuel + 1) σ v = .ok (v, σ, 0) := by
  cases v <;> first | rfl | (simp [isDelay] at hne)

theorem now_length : ∀ (fuel : Nat) (σ : Store) (v r : Value) (σ' : Store)
    (k : Nat), now fuel σ v = .ok (r, σ', k) → List.length σ' = List.length σ := by
  intro fuel
  induction fuel with
  | zero => intro σ v r σ' k h; simp [now] at h
  | succ fuel ih =>
      intro σ v r σ' k h
      by_cases hd : isDelay v = true
      · obtain ⟨cid, rfl⟩ := isDelay_iff.mp hd
        cases hc : σ.get cid with
        | none => simp [now, hc] at h
        | some c =>
            cases c with
            | forced w =>
                simp only [now, hc, Except.ok.injEq, Prod.mk.injEq] at h
                rw [← h.2.1]
            | unforced dc =>
                simp only [now, hc] at h
                obtain ⟨w, hw, h⟩ := except_bind_ok.mp h
                obtain ⟨⟨r0, σ1, k0⟩, hrec, h⟩ := except_bind_ok.mp h
                simp only [Except.ok.injEq, Prod.mk.injEq] at h
                rw [← h.2.1, Store.length_set]
                exact ih σ w r0 σ1 k0 hrec
      · rw [now_nonDelay fuel σ v (Bool.eq_false_iff.mpr hd)] at h
        simp only [Except.ok.injEq, Prod.mk.injEq] at h
        rw [← h.2.1]

theorem now_forced_preserved : ∀ (fuel : Nat) (σ : Store) (v r : Value)
    (σ' : Store) (k cid : Nat) (w : Value),
    now fuel σ v = .ok (r, σ', k) → σ.get cid = some (.forced w) →
    σ'.get cid = some (.forced w) := by
  intro fuel
  induction fuel with
  | zero => intro σ v r σ' k cid w h _; simp [now] at h
  | succ fuel ih =>
      intro σ v r σ' k cid w h hget
      by_cases hd : isDelay v = true
      · obtain ⟨cid', rfl⟩ := isDelay_iff.mp hd
        cases hc : σ.get cid' with
        | none => simp [now, hc] at h
        | some c =>
            cases c with
            | forced w' =>
                simp only [now, hc, Except.ok.injEq, Prod.mk.injEq] at h
                rw [← h.2.1]
                exact hget
            | unforced dc =>
                simp only [now, hc] at h
                obtain ⟨w0, hw0, h⟩ := except_bind_ok.mp h
                obtain ⟨⟨r0, σ1, k0⟩, hrec, h⟩ := except_bind_ok.mp h
                simp only [Except.ok.injEq, Prod.mk.injEq] at h
                rw [← h.2.1]
                have hne : cid' ≠ cid := by
                  intro he
                  rw [he, hget] at hc
                  injection hc with hc2
                  exact Cell.noConfusion hc2
                rw [Store.get_set_ne _ _ hne]
                exact ih σ w0 r0 σ1 k0 cid w hrec hget
      · rw [now_nonDelay fuel σ v (Bool.eq_false_iff.mpr hd)] at h
        simp only [Except.ok.injEq, Prod.mk.injEq] at h
        rw [← h.2.1]
        exact hget

theorem now_unforced_forces (fuel : Nat) (σ : Store) (cid : Nat)
    (dc : DelayClosure) (r : Value) (σ' : Store) (k : Nat)
    (h1 : σ.get cid = some (.unforced dc))
    (h2 : now fuel σ (.delay cid) = .ok (r, σ', k)) :
    σ'.get cid = some (.forced r) ∧ 1 ≤ k := by
  cases fuel with
  | zero => simp [now] at h2
  | succ fuel =>
      simp only [now, h1] at h2
      obtain ⟨w, hw, h2⟩ := except_bind_ok.mp h2
      obtain ⟨⟨r0, σ1, k0⟩, hrec, h2⟩ := except_bind_ok.mp h2
      simp only [Except.ok.injEq, Prod.mk.injEq] at h2
      obtain ⟨hr, hσ, hk⟩ := h2
      constructor
      · rw [← hσ, ← hr]
        apply Store.get_set_self
        rw [now_length fuel σ w r0 σ1 k0 hrec]
        exact Store.lt_length_of_get σ h1
      · omega

/-- Claim C6: a Delay cell transitions at most once from unforced to forced:
reading an already-forced cell returns the stored value with the store
unchanged and zero evaluator invocations; forced cells stay forced with
the same value across any forcing (so the transition is visible through
every alias carrying the same cell index); and a successful `now` on an
unforced cell leaves it forced with the returned value, having invoked
the evaluator. -/
theorem delay_force_memoization :
    (∀ (fuel : Nat) (σ : Store) (cid : Nat) (w : Value),
      σ.get cid = some (.forced w) →
      now (fuel + 1) σ (.delay cid) = .ok (w, σ, 0)) ∧
    (∀ (fuel : Nat) (σ : Store) (v r : Value) (σ' : Store) (k cid : Nat)
      (w : Value), now fuel σ v = .ok (r, σ', k) →
      σ.get cid = some (.forced w) → σ'.get cid = some (.forced w)) ∧
    (∀ (fuel : Nat) (σ : Store) (cid : Nat) (dc : DelayClosure) (r : Value)
      (σ' : Store) (k : Nat), σ.get cid = some (.unforced dc) →
      now fuel σ (.delay cid) = .ok (r, σ', k) →
      σ'.get cid = some (.forced r) ∧ 1 ≤ k) := by
  refine ⟨?_, ?_, ?_⟩
  · intro fuel σ cid w hget
    simp [now, hget]
  · intro fuel σ v r σ' k cid w h hget
    exact now_forced_preserved fuel σ v r σ' k cid w h hget
  · intro fuel σ cid dc r σ' k h1 h2
    exact now_unforced_forces fuel σ cid dc r σ' k h1 h2

/-- Witness for C6 on a one-cell store: forcing the unforced cell
evaluates once and stores the result; reading the forced cell returns it
with no evaluation and no store change. -/
theorem delay_force_memoization_witness :
    now 3 [Cell.forced .zero] (.delay 0) = .ok (.zero, [Cell.forced .zero], 0) ∧
    Store.get [Cell.forced Value.zero] 0 = some (.forced .zero) ∧
    (Store.get [Cell.forced Value.zero] 0 = some (.forced .zero) ∧ 1 ≤ 1) :=
  ⟨delay_force_memoization.1 2 [Cell.forced .zero] 0 .zero rfl,
   delay_force_memoization.2.1 3 [Cell.forced .zero] Value.nat .nat
     [Cell.forced .zero] 0 0 .zero rfl rfl,
   delay_force_memoization.2.2 3 [Cell.unforced ⟨Env.nil, Core.zero⟩] 0
     ⟨Env.nil, Core.zero⟩ .zero [Cell.forced .zero] 1 rfl rfl⟩

/-- Claim C9: over a well-formed store (forced cells never hold Delays, as the
write-once discipline guarantees), `now` never returns a Delay: the base
`now` returns the non-Delay receiver, and forcing collapses any chain of
nested Delays; well-formedness is preserved. -/
theorem now_never_returns_delay : ∀ (fuel : Nat) (σ : Store) (v r : Value)
    (σ' : Store) (k : Nat), WFStore σ → now fuel σ v = .ok (r, σ', k) →
    isDelay r = false ∧ WFStore σ' := by
  intro fuel
  induction fuel with
  | zero => intro σ v r σ' k _ h; simp [now] at h
  | succ fuel ih =>
      intro σ v r σ' k hwf h
      by_cases hd : isDelay v = true
      · obtain ⟨cid, rfl⟩ := isDelay_iff.mp hd
        cases hc : σ.get cid with
        | none => simp [now, hc] at h
        | some c =>
            cases c with
            | forced w =>
                simp only [now, hc, Except.ok.injEq, Prod.mk.injEq] at h
                obtain ⟨h1, h2, _⟩ := h
                exact ⟨h1 ▸ hwf cid w hc, h2 ▸ hwf⟩
            | unforced dc =>
                simp only [now, hc] at h
                obtain ⟨w, hw, h⟩ := except_bind_ok.mp h
                obtain ⟨⟨r0, σ1, k0⟩, hrec, h⟩ := except_bind_ok.mp h
                simp only [Except.ok.injEq, Prod.mk.injEq] at h
                obtain ⟨h1, h2, _⟩ := h
                obtain ⟨hr0, hwf1⟩ := ih σ w r0 σ1 k0 hwf hrec
                constructor
                · rw [← h1]
                  exact hr0
                · rw [← h2]
                  intro cid2 w2 hg2
                  by_cases he : cid = cid2
                  · subst he
                    rw [Store.get_set_self] at hg2
                    · injection hg2 with hg3
                      injection hg3 with hg4
                      rw [← hg4]
                      exact hr0
                    · rw [now_length fuel σ w r0 σ1 k0 hrec]
                      exact Store.lt_length_of_get σ hc
                  · rw [Store.get_set_ne _ _ he] at hg2
                    exact hwf1 cid2 w2 hg2
      · rw [now_nonDelay fuel σ v (Bool.eq_false_iff.mpr hd)] at h
        simp only [Except.ok.injEq, Prod.mk.injEq] at h
        obtain ⟨h1, h2, _⟩ := h
        exact ⟨h1 ▸ Bool.eq_false_iff.mpr hd, h2 ▸ hwf⟩

/-- Witness for C9: forcing an unforced cell holding `zero` returns a
non-Delay value and leaves the store well-formed. -/
theorem now_never_returns_delay_witness :
    WFStore [Cell.unforced ⟨Env.nil, Core.zero⟩] ∧
    isDelay Value.zero = false ∧ WFStore [Cell.forced Value.zero] :=
  have hwf : WFStore [Cell.unforced ⟨Env.nil, Core.zero⟩] := by
    intro cid w h
    cases cid with
    | zero => simp [Store.get] at h
    | succ n => simp [Store.get] at h
  have hmain := now_never_returns_delay 3 [Cell.unforced ⟨Env.nil, Core.zero⟩]
    (.delay 0) .zero [Cell.forced .zero] 1 hwf rfl
  ⟨hwf, hmain.1, hmain.2⟩

/- ### C10 helpers -/

theorem typeHead_not_ctorName (v : Value) (ht : isTypeHead v = true) :
    isCtorName (headName v) = false := by
  cases v <;> first | rfl | (simp [isTypeHead] at ht)

theorem rbt_typeHead_no_own_throw (fuel : Nat) (ctx : Ctx) (σ : Store)
    (v : Value) (ht : isTypeHead v = true) :
    readBackType fuel ctx σ v ≠ .error (.noReadBackType (headName v)) := by
  intro hcon
  have hname := ((noRBT_invariant fuel).2.2.2.2.2.2.2.1) ctx σ v (headName v) hcon
  rw [typeHead_not_ctorName v ht] at hname
  exact Bool.noConfusion hname

/-- Claim C10: `readBackType` throws exactly on the constructor-form variants
(Quote, Add1, Lambda, Cons, ListCons, Same, VecCons, Left, Right, Zero,
Sole, Nil, VecNil); when the value is a type former — or a Delay forcing
to one — its own throwing branch is unreachable. -/
theorem readBackType_throws_iff_constructor_form (fuel : Nat) (ctx : Ctx)
    (σ : Store) (v : Value) :
    (isConstructorForm v = true →
      readBackType (fuel + 1) ctx σ v = .error (.noReadBackType (headName v))) ∧
    (isTypeHead v = true →
      readBackType fuel ctx σ v ≠ .error (.noReadBackType (headName v))) ∧
    (∀ (cid : Nat) (w : Value), v = .delay cid → nowRO fuel σ v = .ok w →
      isTypeHead w = true →
      readBackType (fuel + 1) ctx σ v ≠ .error (.noReadBackType (headName w))) := by
  refine ⟨?_, ?_, ?_⟩
  · intro hc
    cases v <;> first | rfl | (simp [isConstructorForm] at hc)
  · exact fun ht => rbt_typeHead_no_own_throw fuel ctx σ v ht
  · intro cid w hv hnow ht hcon
    subst hv
    simp only [readBackType] at hcon
    rw [except_bind_ok_eq hnow] at hcon
    exact rbt_typeHead_no_own_throw fuel ctx σ w ht hcon

/-- Witness for C10: `Zero` throws its `No readBackType` error; `Nat`
never does; a Delay forced to `Nat` never does. -/
theorem readBackType_throws_iff_constructor_form_witness :
    readBackType 5 [] [] .zero = .error (.noReadBackType "Zero") ∧
    readBackType 5 [] [] .nat ≠ .error (.noReadBackType "Nat") ∧
    readBackType 6 [] [Cell.forced .nat] (.delay 0) ≠
      .error (.noReadBackType "Nat") :=
  ⟨(readBackType_throws_iff_constructor_form 4 [] [] .zero).1 rfl,
   (readBackType_throws_iff_constructor_form 5 [] [] .nat).2.1 rfl,
   (readBackType_throws_iff_constructor_form 5 [] [Cell.forced .nat]
     (.delay 0)).2.2 0 .nat rfl rfl rfl⟩

end PieSlang
